import Mathlib

/-!
# Verification of the Plan Copy Identity Normalizer and the diode-data notebook

The first part of this file is a shallow embedding of the Plan Copy Identity
Normalizer (`copy_plan_without_changes`).  The Python implementation of that
script is not part of the available sources (only its user manual and README
are), so every definition in the `CopyPlan` namespace is modelled from the
specification, as indicated by its doc comment.

The second part (`Diode` namespace) embeds the per-file loop of the
`create-diode-data.ipynb` notebook, whose source is available.
-/

namespace CopyPlan

/-- Modelled from the spec: a Beam has a Number (integer, unique across the
whole PatientRecord once committed), a Name, and an IsSetupBeam flag. -/
structure Beam where
  number : Nat
  name : String
  isSetup : Bool
deriving DecidableEq

/-- Modelled from the spec: an Isocenter belongs to a Plan and has a Name. -/
structure Isocenter where
  name : String
deriving DecidableEq

/-- Modelled from the spec: a BeamSet has a Name and an ordered sequence of
Beams (including setup beams). -/
structure BeamSet where
  name : String
  beams : List Beam
deriving DecidableEq

/-- Modelled from the spec: a Plan has a Name, an ordered sequence of
BeamSets, and an ordered sequence of Isocenters. -/
structure Plan where
  name : String
  beamSets : List BeamSet
  isocenters : List Isocenter
deriving DecidableEq

/-- Modelled from the spec: a PatientRecord is an ordered collection of
Plans. -/
structure PatientRecord where
  plans : List Plan
deriving DecidableEq

/-- All beams of a plan, in the enumeration order of the spec (Step 2):
BeamSet order as given, and within a BeamSet the listed beam order,
treatment and setup beams interleaved as listed. -/
def planBeams (p : Plan) : List Beam :=
  p.beamSets.flatMap (·.beams)

/-- Beam numbers present in every plan of the patient except the copy
(identified by its index). -/
def othersNumbers (patient : PatientRecord) (copyIdx : Nat) : List Nat :=
  ((patient.plans.eraseIdx copyIdx).flatMap planBeams).map (·.number)

/-- Modelled from the spec (Step 2): `maxExisting` is the maximum beam Number
over every Beam in every Plan of the patient except the copy, taken as 0 when
no such beam exists. -/
def maxExisting (patient : PatientRecord) (copyIdx : Nat) : Nat :=
  (othersNumbers patient copyIdx).foldr max 0

/-- Modelled from the spec (§3, Old Context): a beam's old Name when that
Name is not the decimal string of its old Number (treatment beams) or not the
host's default setup-beam name `dflt` (setup beams). -/
def oldContext (dflt : String) (b : Beam) : Option String :=
  if b.isSetup then
    if b.name = dflt then none else some b.name
  else
    if b.name = toString b.number then none else some b.name

/-- Modelled from the spec (Step 3): the new beam name is the decimal string
of the new number, followed, when old context is present, by a single space
and the old context string. -/
def composeName (newNumber : Nat) (ctx : Option String) : String :=
  match ctx with
  | none => toString newNumber
  | some c => toString newNumber ++ " " ++ c

/-- Modelled from the spec (§6): a single field write against the host's
mutation interface; each write identifies the entity it targets. -/
inductive Write where
  | beamSetName : Nat → String → Write
  | isoName : Nat → String → Write
  | beamNumber : Nat → Nat → Nat → Write
  | beamName : Nat → Nat → String → Write
deriving DecidableEq

/-- Modelled from the spec (§7): the error taxonomy.  `ExhaustedInput` is
treated as a successful no-op, so it is not an error constructor. -/
inductive NormalizationError where
  | structuralMismatch : NormalizationError
  | hostRejected : Write → NormalizationError
deriving DecidableEq

/-- Modelled from the spec (precondition of §4.1): pointwise structural
mirror of two beam lists, comparing setup flags positionally. -/
def beamsMirror : List Beam → List Beam → Bool
  | [], [] => true
  | sb :: srest, cb :: crest => (sb.isSetup == cb.isSetup) && beamsMirror srest crest
  | _, _ => false

/-- Modelled from the spec (precondition of §4.1): pointwise structural
mirror of two beam-set lists. -/
def beamSetsMirror : List BeamSet → List BeamSet → Bool
  | [], [] => true
  | sbs :: srest, cbs :: crest => beamsMirror sbs.beams cbs.beams && beamSetsMirror srest crest
  | _, _ => false

/-- Modelled from the spec (precondition of §4.1): the copy has the same
count and order of BeamSets and Isocenters as the source, with the same
per-BeamSet beam counts and per-beam setup flags. -/
def mirrors (src copy : Plan) : Bool :=
  beamSetsMirror src.beamSets copy.beamSets &&
    (src.isocenters.length == copy.isocenters.length)

/-- Modelled from the spec (Step 1, Step 4): write the derived beam-set names
one at a time; each write may be refused by the host, in which case the whole
operation fails with `hostRejected`.  The new name of beam set `i` is
`copy.Name` plus the positional suffix the source beam set's name bears
relative to `source.Name`. -/
def commitBeamSetNames (accepts : Write → Bool) (srcName copyName : String) :
    Nat → List BeamSet → List BeamSet → Except NormalizationError (List BeamSet)
  | _, [], [] => .ok []
  | i, sbs :: srest, cbs :: crest =>
    let w : Write := .beamSetName i (copyName ++ sbs.name.drop srcName.length)
    if accepts w then
      match commitBeamSetNames accepts srcName copyName (i + 1) srest crest with
      | .ok rest => .ok ({ cbs with name := copyName ++ sbs.name.drop srcName.length } :: rest)
      | .error e => .error e
    else .error (.hostRejected w)
  | _, _, _ => .error .structuralMismatch

/-- Modelled from the spec (Step 1, Step 4): write the derived isocenter
names one at a time; isocenter `i` is renamed to
`copy.Name ++ " " ++ (i + 1)`. -/
def commitIsoNames (accepts : Write → Bool) (copyName : String) :
    Nat → List Isocenter → Except NormalizationError (List Isocenter)
  | _, [] => .ok []
  | i, _ :: rest =>
    let w : Write := .isoName i (copyName ++ " " ++ toString (i + 1))
    if accepts w then
      match commitIsoNames accepts copyName (i + 1) rest with
      | .ok r => .ok (⟨copyName ++ " " ++ toString (i + 1)⟩ :: r)
      | .error e => .error e
    else .error (.hostRejected w)

/-- Modelled from the spec (Steps 2-4): renumber and rename the beams of one
beam set, walking the source beams and the copy beams in parallel in their
listed order, threading the last used number.  Each beam receives the next
consecutive number and the composed name derived from its source
counterpart's old context. -/
def commitBeams (accepts : Write → Bool) (dflt : String) (bsIdx : Nat) :
    Nat → Nat → List Beam → List Beam → Except NormalizationError (List Beam × Nat)
  | _, num, [], [] => .ok ([], num)
  | j, num, sb :: srest, cb :: crest =>
    let wNum : Write := .beamNumber bsIdx j (num + 1)
    let newName := composeName (num + 1) (oldContext dflt sb)
    let wName : Write := .beamName bsIdx j newName
    if accepts wNum then
      if accepts wName then
        match commitBeams accepts dflt bsIdx (j + 1) (num + 1) srest crest with
        | .ok r => .ok ({ cb with number := num + 1, name := newName } :: r.1, r.2)
        | .error e => .error e
      else .error (.hostRejected wName)
    else .error (.hostRejected wNum)
  | _, _, _, _ => .error .structuralMismatch

/-- Modelled from the spec (Steps 2-4): renumber and rename the beams of all
beam sets, in beam-set order, threading the last used number across beam
sets. -/
def commitBeamSets (accepts : Write → Bool) (dflt : String) :
    Nat → Nat → List BeamSet → List BeamSet → Except NormalizationError (List BeamSet × Nat)
  | _, num, [], [] => .ok ([], num)
  | i, num, sbs :: srest, cbs :: crest =>
    match commitBeams accepts dflt i 0 num sbs.beams cbs.beams with
    | .ok r =>
      match commitBeamSets accepts dflt (i + 1) r.2 srest crest with
      | .ok rest => .ok ({ cbs with beams := r.1 } :: rest.1, rest.2)
      | .error e => .error e
    | .error e => .error e
  | _, _, _, _ => .error .structuralMismatch

/-- Modelled from the spec (§4.1): `normalize(source, copy, patient)`.  The
copy is identified by its index in the patient record.  A source plan with
zero beams is a successful no-op (`ExhaustedInput`); a copy that does not
structurally mirror the source is a `structuralMismatch`; otherwise the
computed names and numbers are committed one write at a time, any refused
write failing the whole operation. -/
def normalize (dflt : String) (accepts : Write → Bool) (src : Plan) (copyIdx : Nat)
    (patient : PatientRecord) : Except NormalizationError PatientRecord :=
  match patient.plans.get? copyIdx with
  | none => .error .structuralMismatch
  | some copy =>
    if planBeams src = [] then .ok patient
    else if mirrors src copy then
      match commitBeamSetNames accepts src.name copy.name 0 src.beamSets copy.beamSets with
      | .error e => .error e
      | .ok bss1 =>
        match commitIsoNames accepts copy.name 0 copy.isocenters with
        | .error e => .error e
        | .ok isos =>
          match commitBeamSets accepts dflt 0 (maxExisting patient copyIdx) src.beamSets bss1 with
          | .error e => .error e
          | .ok r =>
            .ok ⟨patient.plans.set copyIdx { copy with beamSets := r.1, isocenters := isos }⟩
    else .error .structuralMismatch

/-! ### Pure characterization of a successful commit -/

/-- The beam-set renaming of Step 1 as a pure function: walk source and copy
beam sets in parallel and re-root each source suffix at the copy's name. -/
def renameBeamSets (srcName copyName : String) : List BeamSet → List BeamSet → List BeamSet
  | sbs :: srest, cbs :: crest =>
    { cbs with name := copyName ++ sbs.name.drop srcName.length } ::
      renameBeamSets srcName copyName srest crest
  | _, _ => []

/-- The isocenter renaming of Step 1 as a pure function. -/
def renameIsos (copyName : String) : Nat → List Isocenter → List Isocenter
  | _, [] => []
  | i, _ :: rest => ⟨copyName ++ " " ++ toString (i + 1)⟩ :: renameIsos copyName (i + 1) rest

/-- The beam renumbering of Steps 2-3 as a pure function over one beam list,
returning the renumbered beams and the last used number. -/
def renumberBeams (dflt : String) : Nat → List Beam → List Beam → List Beam × Nat
  | num, sb :: srest, cb :: crest =>
    let r := renumberBeams dflt (num + 1) srest crest
    ({ cb with number := num + 1, name := composeName (num + 1) (oldContext dflt sb) } :: r.1,
      r.2)
  | num, _, _ => ([], num)

/-- The beam renumbering of Steps 2-3 as a pure function over all beam sets,
threading the last used number across beam sets. -/
def renumberBeamSets (dflt : String) : Nat → List BeamSet → List BeamSet → List BeamSet × Nat
  | num, sbs :: srest, cbs :: crest =>
    let r := renumberBeams dflt num sbs.beams cbs.beams
    let rest := renumberBeamSets dflt r.2 srest crest
    ({ cbs with beams := r.1 } :: rest.1, rest.2)
  | num, _, _ => ([], num)

/-- The plan a successful `normalize` stores at the copy's index: the copy
with renamed beam sets and isocenters and renumbered, renamed beams. -/
def normalizedCopy (dflt : String) (src copy : Plan) (m : Nat) : Plan :=
  { copy with
    beamSets :=
      (renumberBeamSets dflt m src.beamSets
        (renameBeamSets src.name copy.name src.beamSets copy.beamSets)).1,
    isocenters := renameIsos copy.name 0 copy.isocenters }

/-! ### The write sequence of the commit -/

/-- The beam-set-name writes issued by the commit, in order. -/
def beamSetNameWrites (srcName copyName : String) : Nat → List BeamSet → List Write
  | _, [] => []
  | i, sbs :: rest =>
    .beamSetName i (copyName ++ sbs.name.drop srcName.length) ::
      beamSetNameWrites srcName copyName (i + 1) rest

/-- The isocenter-name writes issued by the commit, in order. -/
def isoNameWrites (copyName : String) : Nat → List Isocenter → List Write
  | _, [] => []
  | i, _ :: rest =>
    .isoName i (copyName ++ " " ++ toString (i + 1)) :: isoNameWrites copyName (i + 1) rest

/-- The beam number and name writes issued by the commit for one beam set,
in order. -/
def beamWritesInSet (dflt : String) (bsIdx : Nat) : Nat → Nat → List Beam → List Write
  | _, _, [] => []
  | j, num, sb :: rest =>
    .beamNumber bsIdx j (num + 1) ::
      .beamName bsIdx j (composeName (num + 1) (oldContext dflt sb)) ::
        beamWritesInSet dflt bsIdx (j + 1) (num + 1) rest

/-- The beam number and name writes issued by the commit, in order. -/
def beamWrites (dflt : String) : Nat → Nat → List BeamSet → List Write
  | _, _, [] => []
  | i, num, sbs :: rest =>
    beamWritesInSet dflt i 0 num sbs.beams ++
      beamWrites dflt (i + 1) (num + sbs.beams.length) rest

/-- Every write a successful commit must get past the host, in order. -/
def plannedWrites (dflt : String) (src copy : Plan) (m : Nat) : List Write :=
  beamSetNameWrites src.name copy.name 0 src.beamSets ++
    isoNameWrites copy.name 0 copy.isocenters ++
      beamWrites dflt 0 m src.beamSets

/-! ### Intermediate states of the commit -/

/-- The numbers `maxExisting + 1, maxExisting + 2, …` assigned to the copy's
beams, in enumeration order. -/
def newNumbers (src : Plan) (m : Nat) : List Nat :=
  List.range' (m + 1) (planBeams src).length

/-- Modelled from the spec (Step 4): the beam-number writes are applied in
enumeration order, so after the first `k` of them the patient-wide beam
numbers are the other plans' numbers, the `k` new numbers already written,
and the copy's not-yet-overwritten old numbers. -/
def midNumbers (patient : PatientRecord) (copyIdx : Nat) (src copy : Plan) (k : Nat) :
    List Nat :=
  othersNumbers patient copyIdx ++
    (newNumbers src (maxExisting patient copyIdx)).take k ++
      ((planBeams copy).map (·.number)).drop k

/-! ### Concrete scenarios -/

/-- A host that accepts every write. -/
def acceptAll : Write → Bool := fun _ => true

/-- A host that refuses every beam-number write. -/
def rejectNumbers : Write → Bool := fun w =>
  match w with
  | .beamNumber _ _ _ => false
  | _ => true

/-- The concrete scenario of the spec (§8): a plan elsewhere in the patient
holding the existing maximum beam number 7. -/
def scnOther : Plan :=
  ⟨"Old", [⟨"Old", [⟨7, "7", false⟩]⟩], []⟩

/-- The concrete scenario of the spec (§8): source plan `Plan 1` with beam
sets `Plan 1` (beams numbered 1, 2 named "1", "2") and `Plan 1_2` (beam
numbered 3 named "Boost"). -/
def scnSrc : Plan :=
  ⟨"Plan 1",
    [⟨"Plan 1", [⟨1, "1", false⟩, ⟨2, "2", false⟩]⟩,
      ⟨"Plan 1_2", [⟨3, "Boost", false⟩]⟩],
    [⟨"Plan 1 1"⟩]⟩

/-- The concrete scenario of the spec (§8): the host-produced copy
`Plan 1 (1)`, with host-assigned default names and numbers. -/
def scnCopy : Plan :=
  ⟨"Plan 1 (1)",
    [⟨"Plan 1 (1)", [⟨4, "4", false⟩, ⟨5, "5", false⟩]⟩,
      ⟨"Plan 1 (1)_2", [⟨6, "6", false⟩]⟩],
    [⟨"Plan 1 (1) 1"⟩]⟩

/-- The concrete scenario of the spec (§8): the whole patient record, the
copy at index 2. -/
def scnPatient : PatientRecord := ⟨[scnOther, scnSrc, scnCopy]⟩

/-- The patient record produced by normalizing the concrete scenario. -/
def scnResult : PatientRecord :=
  match normalize "SB" acceptAll scnSrc 2 scnPatient with
  | .ok p => p
  | .error _ => ⟨[]⟩

/-- The normalized copy plan of the concrete scenario. -/
def scnResCopy : Plan := (scnResult.plans.get? 2).getD ⟨"", [], []⟩

/-- A second source with the same relative naming pattern as `scnSrc` but a
different root name (for the positional-renaming claim). -/
def scnSrc2 : Plan :=
  ⟨"R Breast",
    [⟨"R Breast", [⟨1, "1", false⟩, ⟨2, "2", false⟩]⟩,
      ⟨"R Breast_2", [⟨3, "B", false⟩]⟩],
    [⟨"R Breast 1"⟩]⟩

/-- The host-produced copy of `scnSrc2`. -/
def scnCopy2 : Plan :=
  ⟨"R Breast (1)",
    [⟨"R Breast (1)", [⟨4, "4", false⟩, ⟨5, "5", false⟩]⟩,
      ⟨"R Breast (1)_2", [⟨6, "6", false⟩]⟩],
    [⟨"R Breast (1) 1"⟩]⟩

/-- Patient record for the second positional-renaming run, the copy at
index 1. -/
def scnPatient2 : PatientRecord := ⟨[scnSrc2, scnCopy2]⟩

/-- Result of normalizing the second positional-renaming run. -/
def scnResult2 : PatientRecord :=
  match normalize "SB" acceptAll scnSrc2 1 scnPatient2 with
  | .ok p => p
  | .error _ => ⟨[]⟩

/-- The normalized copy plan of the second positional-renaming run. -/
def scnResCopy2 : Plan := (scnResult2.plans.get? 1).getD ⟨"", [], []⟩

/-- A source plan with no beams at all (the `ExhaustedInput` case). -/
def scnEmptySrc : Plan := ⟨"E", [], []⟩

/-- Double-invocation scenario: the source plan, holding the patient's
maximum beam number 2. -/
def twiceSrc : Plan := ⟨"S", [⟨"S", [⟨2, "2", false⟩]⟩], []⟩

/-- Double-invocation scenario: the host-produced copy. -/
def twiceCopy : Plan := ⟨"S (1)", [⟨"C", [⟨2, "2", false⟩]⟩], []⟩

/-- Double-invocation scenario: the patient record, the copy at index 1. -/
def twicePatient : PatientRecord := ⟨[twiceSrc, twiceCopy]⟩

/-- Result of the first invocation on the double-invocation scenario. -/
def twiceResult1 : PatientRecord :=
  match normalize "SB" acceptAll twiceSrc 1 twicePatient with
  | .ok p => p
  | .error _ => ⟨[]⟩

/-- Result of the second invocation on the double-invocation scenario. -/
def twiceResult2 : PatientRecord :=
  match normalize "SB" acceptAll twiceSrc 1 twiceResult1 with
  | .ok p => p
  | .error _ => ⟨[]⟩

/-- Transient-collision scenario: the source plan, holding numbers 1 and 2. -/
def transSrc : Plan := ⟨"S", [⟨"S", [⟨1, "1", false⟩, ⟨2, "2", false⟩]⟩], []⟩

/-- Transient-collision scenario: the host-produced copy, whose host-assigned
numbers 4 and 3 exceed the patient's maximum outside the copy. -/
def transCopy : Plan := ⟨"S (1)", [⟨"C", [⟨4, "4", false⟩, ⟨3, "3", false⟩]⟩], []⟩

/-- Transient-collision scenario: the patient record, the copy at index 1. -/
def transPatient : PatientRecord := ⟨[transSrc, transCopy]⟩

end CopyPlan

namespace Diode

/-- Number of rows of the Delta4 diode array (`N_ROW` in the notebook). -/
def N_ROW : Nat := 25

/-- Number of columns of the Delta4 diode array (`N_COL` in the notebook). -/
def N_COL : Nat := 42

/-- `N_DIODES = N_ROW * N_COL` in the notebook. -/
def N_DIODES : Nat := N_ROW * N_COL

/-- Helper for `pySplit`: split a character list at each separator,
accumulating the current field in reverse. -/
def pySplitAux (sep : Char) : List Char → List Char → List String
  | acc, [] => [⟨acc.reverse⟩]
  | acc, c :: cs =>
    if c = sep then ⟨acc.reverse⟩ :: pySplitAux sep [] cs
    else pySplitAux sep (c :: acc) cs

/-- Python's `str.split(sep)` for a one-character separator: split at every
occurrence, keeping empty fields (`""` splits to `[""]`). -/
def pySplit (sep : Char) (s : String) : List String :=
  pySplitAux sep [] s.data

/-- The `diode_data` ordered dictionary of the notebook: one list per column.
The `Y (iec-head) [mm]` column is a list of characters because the notebook
extends it with a repeated string, which Python iterates character by
character. -/
structure DiodeData where
  machine : List String
  radDevice : List String
  run : List String
  normLevel : List String
  doseType : List String
  dist : List String
  x : List String
  z : List String
  y : List Char
  dose : List String
deriving DecidableEq

/-- The initial `diode_data`: every column list empty. -/
def emptyDiodeData : DiodeData :=
  { machine := [], radDevice := [], run := [], normLevel := [], doseType := [],
    dist := [], x := [], z := [], y := [], dose := [] }

/-- The body of `for l in lines[9:]`: split the line on tabs, extend the
`Y (iec-head) [mm]` column with `l[0] * N_COL` (string repetition, iterated
as characters) and the `Dose [Gy]` column with `l[1:]`. -/
def processLine (d : DiodeData) (l : String) : DiodeData :=
  let parts := pySplit '\t' l
  { d with
    y := d.y ++ (List.replicate N_COL (parts.headD "").toList).flatten,
    dose := d.dose ++ parts.tail }

/-- One iteration of the notebook's per-file loop.  `toks` is the result of
`os.path.splitext(f)[0].split()`: it must unpack into exactly the five fields
`machine, rad_dev, dose_type, norm, run`, else the iteration raises.  `lines`
is the result of `data.readlines()`; lines 5, 6 and 7 must exist, else the
iteration raises.  The five metadata columns are each extended with
`N_DIODES` copies of the corresponding field, the coordinate columns with the
header fields repeated `N_ROW` times, and the per-line columns by
`processLine` over `lines[9:]`. -/
def processFile (d : DiodeData) (toks : List String) (lines : List String) :
    Option DiodeData :=
  match toks with
  | [machine, radDev, doseType0, norm, runTok] =>
    let doseType :=
      if doseType0.toList.take 4 = "Beam".toList then
        "Beam " ++ (⟨doseType0.toList.drop (doseType0.toList.length - 1)⟩ : String)
      else doseType0
    match lines.get? 5, lines.get? 6, lines.get? 7 with
    | some l5, some l6, some l7 =>
      let dist := pySplit '\t' (l5.drop 1)
      let xs := pySplit '\t' (l6.drop 1)
      let zs := pySplit '\t' (l7.drop 1)
      let d1 :=
        { d with
          machine := d.machine ++ List.replicate N_DIODES machine,
          radDevice := d.radDevice ++ List.replicate N_DIODES radDev,
          run := d.run ++ List.replicate N_DIODES runTok,
          normLevel := d.normLevel ++ List.replicate N_DIODES norm,
          doseType := d.doseType ++ List.replicate N_DIODES doseType,
          dist := d.dist ++ (List.replicate N_ROW dist).flatten,
          x := d.x ++ (List.replicate N_ROW xs).flatten,
          z := d.z ++ (List.replicate N_ROW zs).flatten }
      some ((lines.drop 9).foldl processLine d1)
    | _, _, _ => none
  | _ => none

/-- The whole `for f in os.listdir(D4_EXPORTS_DIR)` loop over a list of
already-read files, each given as its filename tokens and its lines. -/
def processFiles : List (List String × List String) → DiodeData → Option DiodeData
  | [], d => some d
  | f :: rest, d =>
    match processFile d f.1 f.2 with
    | none => none
    | some d' => processFiles rest d'

/-- Filename tokens of a concrete export file. -/
def sampleToks : List String := ["M1", "D1", "Total", "100", "1"]

/-- Lines of a concrete export file (three header rows at indices 5, 6, 7
and one measurement row after the index-8 header). -/
def sampleLines : List String :=
  ["h0", "h1", "h2", "h3", "h4", "#1	2	3", "#4	5	6", "#7	8	9", "hdr", "-10	0.5	0.6"]

/-- The `diode_data` obtained from processing the concrete export file. -/
def sampleResult : DiodeData :=
  (processFiles [(sampleToks, sampleLines)] emptyDiodeData).getD emptyDiodeData

/-- Filename tokens of a second concrete export file, with a short header. -/
def shortToks : List String := ["M2", "D2", "Total", "100", "2"]

/-- Lines of a second concrete export file whose header rows hold a single
field each. -/
def shortLines : List String := ["h0", "h1", "h2", "h3", "h4", "#1", "#4", "#7"]

end Diode

namespace CopyPlan

/-! ### Structural mirror facts -/

theorem beamsMirror_length : ∀ {s c : List Beam}, beamsMirror s c = true → s.length = c.length := by
  intro s
  induction s with
  | nil => intro c h; cases c <;> simp_all [beamsMirror]
  | cons sb srest ih =>
    intro c h
    cases c with
    | nil => simp [beamsMirror] at h
    | cons cb crest =>
      simp only [beamsMirror, Bool.and_eq_true] at h
      simp [ih h.2]

theorem beamsMirror_flags : ∀ {s c : List Beam}, beamsMirror s c = true →
    s.map (·.isSetup) = c.map (·.isSetup) := by
  intro s
  induction s with
  | nil => intro c h; cases c <;> simp_all [beamsMirror]
  | cons sb srest ih =>
    intro c h
    cases c with
    | nil => simp [beamsMirror] at h
    | cons cb crest =>
      simp only [beamsMirror, Bool.and_eq_true, beq_iff_eq] at h
      simp [h.1, ih h.2]

theorem beamSetsMirror_shape : ∀ {s c : List BeamSet}, beamSetsMirror s c = true →
    s.map (·.beams.length) = c.map (·.beams.length) := by
  intro s
  induction s with
  | nil => intro c h; cases c <;> simp_all [beamSetsMirror]
  | cons sbs srest ih =>
    intro c h
    cases c with
    | nil => simp [beamSetsMirror] at h
    | cons cbs crest =>
      simp only [beamSetsMirror, Bool.and_eq_true] at h
      simp [beamsMirror_length h.1, ih h.2]

theorem beamSetsMirror_flags : ∀ {s c : List BeamSet}, beamSetsMirror s c = true →
    (s.flatMap (·.beams)).map (·.isSetup) = (c.flatMap (·.beams)).map (·.isSetup) := by
  intro s
  induction s with
  | nil => intro c h; cases c <;> simp_all [beamSetsMirror]
  | cons sbs srest ih =>
    intro c h
    cases c with
    | nil => simp [beamSetsMirror] at h
    | cons cbs crest =>
      simp only [beamSetsMirror, Bool.and_eq_true] at h
      simp only [List.flatMap_cons, List.map_append]
      rw [beamsMirror_flags h.1, ih h.2]

theorem le_foldr_max {l : List Nat} {x : Nat} (h : x ∈ l) : x ≤ l.foldr max 0 := by
  induction l with
  | nil => cases h
  | cons a rest ih =>
    rcases List.mem_cons.mp h with rfl | h'
    · exact Nat.le_max_left _ _
    · exact Nat.le_trans (ih h') (Nat.le_max_right _ _)

/-! ### Successful commits compute the pure renaming and renumbering -/

theorem commitBeamSetNames_ok {a : Write → Bool} {sn cn : String} :
    ∀ {sbs cbs : List BeamSet} {i : Nat} {r : List BeamSet},
    commitBeamSetNames a sn cn i sbs cbs = .ok r → r = renameBeamSets sn cn sbs cbs := by
  intro sbs
  induction sbs with
  | nil =>
    intro cbs i r h
    cases cbs with
    | nil => simp [commitBeamSetNames] at h; simp [renameBeamSets, h.symm]
    | cons cbs crest => simp [commitBeamSetNames] at h
  | cons sbs srest ih =>
    intro cbs i r h
    cases cbs with
    | nil => simp [commitBeamSetNames] at h
    | cons cbs crest =>
      simp only [commitBeamSetNames] at h
      split at h
      · split at h
        next heq => cases h; simp [renameBeamSets, ih heq]
        next => cases h
      · cases h

theorem commitBeamSetNames_ok_length {a : Write → Bool} {sn cn : String} :
    ∀ {sbs cbs : List BeamSet} {i : Nat} {r : List BeamSet},
    commitBeamSetNames a sn cn i sbs cbs = .ok r → sbs.length = cbs.length := by
  intro sbs
  induction sbs with
  | nil =>
    intro cbs i r h
    cases cbs with
    | nil => rfl
    | cons cbs crest => simp [commitBeamSetNames] at h
  | cons sbs srest ih =>
    intro cbs i r h
    cases cbs with
    | nil => simp [commitBeamSetNames] at h
    | cons cbs crest =>
      simp only [commitBeamSetNames] at h
      split at h
      · split at h
        next heq => simp [ih heq]
        next => cases h
      · cases h

theorem commitIsoNames_ok {a : Write → Bool} {cn : String} :
    ∀ {isos : List Isocenter} {i : Nat} {r : List Isocenter},
    commitIsoNames a cn i isos = .ok r → r = renameIsos cn i isos := by
  intro isos
  induction isos with
  | nil => intro i r h; simp [commitIsoNames] at h; simp [renameIsos, h.symm]
  | cons iso rest ih =>
    intro i r h
    simp only [commitIsoNames] at h
    split at h
    · split at h
      next heq => cases h; simp [renameIsos, ih heq]
      next => cases h
    · cases h

theorem commitBeams_ok {a : Write → Bool} {dflt : String} {bsIdx : Nat} :
    ∀ {sbs cbs : List Beam} {j num : Nat} {r : List Beam × Nat},
    commitBeams a dflt bsIdx j num sbs cbs = .ok r → r = renumberBeams dflt num sbs cbs := by
  intro sbs
  induction sbs with
  | nil =>
    intro cbs j num r h
    cases cbs with
    | nil => simp [commitBeams] at h; simp [renumberBeams, h.symm]
    | cons cb crest => simp [commitBeams] at h
  | cons sb srest ih =>
    intro cbs j num r h
    cases cbs with
    | nil => simp [commitBeams] at h
    | cons cb crest =>
      simp only [commitBeams] at h
      split at h
      · split at h
        · split at h
          next heq => cases h; simp [renumberBeams, ih heq]
          next => cases h
        · cases h
      · cases h

theorem commitBeams_ok_length {a : Write → Bool} {dflt : String} {bsIdx : Nat} :
    ∀ {sbs cbs : List Beam} {j num : Nat} {r : List Beam × Nat},
    commitBeams a dflt bsIdx j num sbs cbs = .ok r → sbs.length = cbs.length := by
  intro sbs
  induction sbs with
  | nil =>
    intro cbs j num r h
    cases cbs with
    | nil => rfl
    | cons cb crest => simp [commitBeams] at h
  | cons sb srest ih =>
    intro cbs j num r h
    cases cbs with
    | nil => simp [commitBeams] at h
    | cons cb crest =>
      simp only [commitBeams] at h
      split at h
      · split at h
        · split at h
          next heq => simp [ih heq]
          next => cases h
        · cases h
      · cases h

theorem commitBeamSets_ok {a : Write → Bool} {dflt : String} :
    ∀ {sbs cbs : List BeamSet} {i num : Nat} {r : List BeamSet × Nat},
    commitBeamSets a dflt i num sbs cbs = .ok r → r = renumberBeamSets dflt num sbs cbs := by
  intro sbs
  induction sbs with
  | nil =>
    intro cbs i num r h
    cases cbs with
    | nil => simp [commitBeamSets] at h; simp [renumberBeamSets, h.symm]
    | cons cbs crest => simp [commitBeamSets] at h
  | cons sbs srest ih =>
    intro cbs i num r h
    cases cbs with
    | nil => simp [commitBeamSets] at h
    | cons cbs crest =>
      simp only [commitBeamSets] at h
      split at h
      next heqB =>
        split at h
        next heqR =>
          cases h
          have hB := commitBeams_ok heqB
          have hR := ih heqR
          simp [renumberBeamSets, hB, hR]
        next => cases h
      next => cases h

theorem commitBeamSets_ok_shape {a : Write → Bool} {dflt : String} :
    ∀ {sbs cbs : List BeamSet} {i num : Nat} {r : List BeamSet × Nat},
    commitBeamSets a dflt i num sbs cbs = .ok r →
      sbs.map (·.beams.length) = cbs.map (·.beams.length) := by
  intro sbs
  induction sbs with
  | nil =>
    intro cbs i num r h
    cases cbs with
    | nil => rfl
    | cons cbs crest => simp [commitBeamSets] at h
  | cons sbs srest ih =>
    intro cbs i num r h
    cases cbs with
    | nil => simp [commitBeamSets] at h
    | cons cbs crest =>
      simp only [commitBeamSets] at h
      split at h
      next heqB =>
        split at h
        next heqR => simp [commitBeams_ok_length heqB, ih heqR]
        next => cases h
      next => cases h

/-! ### Properties of the pure renaming and renumbering -/

theorem renameBeamSets_names {sn cn : String} :
    ∀ {sbs cbs : List BeamSet}, sbs.length = cbs.length →
    (renameBeamSets sn cn sbs cbs).map (·.name) =
      sbs.map (fun b => cn ++ b.name.drop sn.length) := by
  intro sbs
  induction sbs with
  | nil => intro cbs h; cases cbs <;> simp_all [renameBeamSets]
  | cons sbs srest ih =>
    intro cbs h
    cases cbs with
    | nil => simp at h
    | cons cbs crest =>
      simp only [List.length_cons, Nat.succ.injEq] at h
      simp [renameBeamSets, ih h]

theorem renameBeamSets_beams {sn cn : String} :
    ∀ {sbs cbs : List BeamSet}, sbs.length = cbs.length →
    (renameBeamSets sn cn sbs cbs).map (·.beams) = cbs.map (·.beams) := by
  intro sbs
  induction sbs with
  | nil => intro cbs h; cases cbs <;> simp_all [renameBeamSets]
  | cons sbs srest ih =>
    intro cbs h
    cases cbs with
    | nil => simp at h
    | cons cbs crest =>
      simp only [List.length_cons, Nat.succ.injEq] at h
      simp [renameBeamSets, ih h]

theorem renameIsos_length {cn : String} :
    ∀ (isos : List Isocenter) (i : Nat), (renameIsos cn i isos).length = isos.length := by
  intro isos
  induction isos with
  | nil => intro i; simp [renameIsos]
  | cons iso rest ih => intro i; simp [renameIsos, ih]

theorem renameIsos_names {cn : String} :
    ∀ (isos : List Isocenter) (i : Nat),
    (renameIsos cn i isos).map (·.name) =
      (List.range isos.length).map (fun k => cn ++ " " ++ toString (i + k + 1)) := by
  intro isos
  induction isos with
  | nil => intro i; simp [renameIsos]
  | cons iso rest ih =>
    intro i
    rw [List.length_cons, List.range_succ_eq_map]
    simp only [renameIsos, List.map_cons, List.map_map]
    refine congrArg₂ _ (by simp) ?_
    rw [ih (i + 1)]
    refine List.map_congr_left fun k _ => ?_
    simp [Function.comp]
    congr 2
    omega

theorem renumberBeams_fst_length {dflt : String} :
    ∀ {sbs cbs : List Beam} {num : Nat}, sbs.length = cbs.length →
    (renumberBeams dflt num sbs cbs).1.length = sbs.length := by
  intro sbs
  induction sbs with
  | nil => intro cbs num h; simp [renumberBeams]
  | cons sb srest ih =>
    intro cbs num h
    cases cbs with
    | nil => simp at h
    | cons cb crest =>
      simp only [List.length_cons, Nat.succ.injEq] at h
      simp [renumberBeams, ih h]

theorem renumberBeams_snd {dflt : String} :
    ∀ {sbs cbs : List Beam} {num : Nat}, sbs.length = cbs.length →
    (renumberBeams dflt num sbs cbs).2 = num + sbs.length := by
  intro sbs
  induction sbs with
  | nil => intro cbs num h; simp [renumberBeams]
  | cons sb srest ih =>
    intro cbs num h
    cases cbs with
    | nil => simp at h
    | cons cb crest =>
      simp only [List.length_cons, Nat.succ.injEq] at h
      simp only [renumberBeams, ih h, List.length_cons]
      omega

theorem renumberBeams_numbers {dflt : String} :
    ∀ {sbs cbs : List Beam} {num : Nat}, sbs.length = cbs.length →
    (renumberBeams dflt num sbs cbs).1.map (·.number) = List.range' (num + 1) sbs.length := by
  intro sbs
  induction sbs with
  | nil => intro cbs num h; simp [renumberBeams]
  | cons sb srest ih =>
    intro cbs num h
    cases cbs with
    | nil => simp at h
    | cons cb crest =>
      simp only [List.length_cons, Nat.succ.injEq] at h
      simp [renumberBeams, ih h, List.range'_succ]

theorem renumberBeams_flags {dflt : String} :
    ∀ {sbs cbs : List Beam} {num : Nat}, sbs.length = cbs.length →
    (renumberBeams dflt num sbs cbs).1.map (·.isSetup) = cbs.map (·.isSetup) := by
  intro sbs
  induction sbs with
  | nil => intro cbs num h; cases cbs <;> simp_all [renumberBeams]
  | cons sb srest ih =>
    intro cbs num h
    cases cbs with
    | nil => simp at h
    | cons cb crest =>
      simp only [List.length_cons, Nat.succ.injEq] at h
      simp [renumberBeams, ih h]

theorem renumberBeams_names {dflt : String} :
    ∀ {sbs cbs : List Beam} {num : Nat}, sbs.length = cbs.length → ∀ k : Nat,
    ((renumberBeams dflt num sbs cbs).1.map (·.name)).get? k =
      (sbs.get? k).map (fun sb => composeName (num + k + 1) (oldContext dflt sb)) := by
  intro sbs
  induction sbs with
  | nil => intro cbs num h k; simp [renumberBeams]
  | cons sb srest ih =>
    intro cbs num h k
    cases cbs with
    | nil => simp at h
    | cons cb crest =>
      simp only [List.length_cons, Nat.succ.injEq] at h
      cases k with
      | zero => simp [renumberBeams]
      | succ k =>
        simp only [renumberBeams, List.map_cons, List.get?_cons_succ]
        rw [ih h k]
        cases srest.get? k <;> simp
        congr 2
        omega

theorem renumberBeams_append {dflt : String} :
    ∀ {s1 c1 : List Beam}, s1.length = c1.length → ∀ {s2 c2 : List Beam} {num : Nat},
    renumberBeams dflt num (s1 ++ s2) (c1 ++ c2) =
      ((renumberBeams dflt num s1 c1).1 ++
          (renumberBeams dflt (renumberBeams dflt num s1 c1).2 s2 c2).1,
        (renumberBeams dflt (renumberBeams dflt num s1 c1).2 s2 c2).2) := by
  intro s1
  induction s1 with
  | nil =>
    intro c1 h s2 c2 num
    cases c1 with
    | nil => simp [renumberBeams]
    | cons c crest => simp at h
  | cons sb srest ih =>
    intro c1 h s2 c2 num
    cases c1 with
    | nil => simp at h
    | cons cb crest =>
      simp only [List.length_cons, Nat.succ.injEq] at h
      simp [renumberBeams, ih h]

theorem renumberBeamSets_names {dflt : String} :
    ∀ {sbs cbs : List BeamSet} {num : Nat}, sbs.length = cbs.length →
    (renumberBeamSets dflt num sbs cbs).1.map (·.name) = cbs.map (·.name) := by
  intro sbs
  induction sbs with
  | nil => intro cbs num h; cases cbs <;> simp_all [renumberBeamSets]
  | cons sbs srest ih =>
    intro cbs num h
    cases cbs with
    | nil => simp at h
    | cons cbs crest =>
      simp only [List.length_cons, Nat.succ.injEq] at h
      simp [renumberBeamSets, ih h]

theorem renumberBeamSets_shape {dflt : String} :
    ∀ {sbs cbs : List BeamSet} {num : Nat},
    sbs.map (·.beams.length) = cbs.map (·.beams.length) →
    (renumberBeamSets dflt num sbs cbs).1.map (·.beams.length) =
      sbs.map (·.beams.length) := by
  intro sbs
  induction sbs with
  | nil => intro cbs num h; simp [renumberBeamSets]
  | cons sbs srest ih =>
    intro cbs num h
    cases cbs with
    | nil => simp at h
    | cons cbs crest =>
      simp only [List.map_cons, List.cons.injEq] at h
      simp [renumberBeamSets, ih h.2, renumberBeams_fst_length h.1]

theorem renumberBeamSets_flatten {dflt : String} :
    ∀ {sbs cbs : List BeamSet} {num : Nat},
    sbs.map (·.beams.length) = cbs.map (·.beams.length) →
    (renumberBeamSets dflt num sbs cbs).1.flatMap (·.beams) =
      (renumberBeams dflt num (sbs.flatMap (·.beams)) (cbs.flatMap (·.beams))).1 := by
  intro sbs
  induction sbs with
  | nil =>
    intro cbs num h
    cases cbs with
    | nil => simp [renumberBeamSets, renumberBeams]
    | cons cbs crest => simp at h
  | cons sbs srest ih =>
    intro cbs num h
    cases cbs with
    | nil => simp at h
    | cons cbs crest =>
      simp only [List.map_cons, List.cons.injEq] at h
      simp only [renumberBeamSets, List.flatMap_cons]
      rw [renumberBeams_append h.1, ih h.2, renumberBeams_snd h.1, h.1]

theorem flatMap_beams_congr {l1 l2 : List BeamSet} (h : l1.map (·.beams) = l2.map (·.beams)) :
    l1.flatMap (·.beams) = l2.flatMap (·.beams) := by
  rw [List.flatMap, List.flatMap, h]

theorem mirrors_shape {src copy : Plan} (h : mirrors src copy = true) :
    src.beamSets.map (·.beams.length) = copy.beamSets.map (·.beams.length) := by
  simp only [mirrors, Bool.and_eq_true] at h
  exact beamSetsMirror_shape h.1

theorem mirrors_flags {src copy : Plan} (h : mirrors src copy = true) :
    (planBeams src).map (·.isSetup) = (planBeams copy).map (·.isSetup) := by
  simp only [mirrors, Bool.and_eq_true] at h
  exact beamSetsMirror_flags h.1

theorem mirrors_isos {src copy : Plan} (h : mirrors src copy = true) :
    src.isocenters.length = copy.isocenters.length := by
  simp only [mirrors, Bool.and_eq_true, beq_iff_eq] at h
  exact h.2

theorem shape_eq_length {l1 l2 : List BeamSet}
    (h : l1.map (·.beams.length) = l2.map (·.beams.length)) : l1.length = l2.length := by
  have := congrArg List.length h
  simpa using this

theorem shape_eq_flat_length {l1 l2 : List BeamSet}
    (h : l1.map (·.beams.length) = l2.map (·.beams.length)) :
    (l1.flatMap (·.beams)).length = (l2.flatMap (·.beams)).length := by
  rw [List.flatMap, List.flatMap, List.length_flatten, List.length_flatten,
    List.map_map, List.map_map]
  exact congrArg List.sum h

/-! ### Characterization of a successful `normalize` -/

theorem normalize_ok_char {dflt : String} {a : Write → Bool} {src : Plan} {copyIdx : Nat}
    {patient : PatientRecord} {copy : Plan} {p' : PatientRecord}
    (hGet : patient.plans.get? copyIdx = some copy)
    (hNE : planBeams src ≠ [])
    (h : normalize dflt a src copyIdx patient = .ok p') :
    mirrors src copy = true ∧
      p' = ⟨patient.plans.set copyIdx
              (normalizedCopy dflt src copy (maxExisting patient copyIdx))⟩ := by
  rw [normalize, hGet] at h
  simp only [] at h
  rw [if_neg hNE] at h
  by_cases hm : mirrors src copy = true
  · refine ⟨hm, ?_⟩
    rw [if_pos hm] at h
    split at h
    next => cases h
    next bss1 heq1 =>
      split at h
      next => cases h
      next isos heq2 =>
        split at h
        next => cases h
        next r heq3 =>
          cases h
          have e1 := commitBeamSetNames_ok heq1
          have e2 := commitIsoNames_ok heq2
          have e3 := commitBeamSets_ok heq3
          rw [normalizedCopy, ← e1, ← e2, ← e3]
  · rw [if_neg hm] at h
    cases h

/-! ### A successful commit got every planned write past the host -/

theorem commitBeamSetNames_accepts {a : Write → Bool} {sn cn : String} :
    ∀ {sbs cbs : List BeamSet} {i : Nat} {r : List BeamSet},
    commitBeamSetNames a sn cn i sbs cbs = .ok r →
      ∀ w ∈ beamSetNameWrites sn cn i sbs, a w = true := by
  intro sbs
  induction sbs with
  | nil => intro cbs i r h w hw; simp [beamSetNameWrites] at hw
  | cons sbs srest ih =>
    intro cbs i r h w hw
    cases cbs with
    | nil => simp [commitBeamSetNames] at h
    | cons cbs crest =>
      simp only [commitBeamSetNames] at h
      split at h
      next hacc =>
        split at h
        next heq =>
          simp only [beamSetNameWrites, List.mem_cons] at hw
          rcases hw with rfl | hw
          · exact hacc
          · exact ih heq w hw
        next => cases h
      next => cases h

theorem commitIsoNames_accepts {a : Write → Bool} {cn : String} :
    ∀ {isos : List Isocenter} {i : Nat} {r : List Isocenter},
    commitIsoNames a cn i isos = .ok r → ∀ w ∈ isoNameWrites cn i isos, a w = true := by
  intro isos
  induction isos with
  | nil => intro i r h w hw; simp [isoNameWrites] at hw
  | cons iso rest ih =>
    intro i r h w hw
    simp only [commitIsoNames] at h
    split at h
    next hacc =>
      split at h
      next heq =>
        simp only [isoNameWrites, List.mem_cons] at hw
        rcases hw with rfl | hw
        · exact hacc
        · exact ih heq w hw
      next => cases h
    next => cases h

theorem commitBeams_accepts {a : Write → Bool} {dflt : String} {bsIdx : Nat} :
    ∀ {sbs cbs : List Beam} {j num : Nat} {r : List Beam × Nat},
    commitBeams a dflt bsIdx j num sbs cbs = .ok r →
      ∀ w ∈ beamWritesInSet dflt bsIdx j num sbs, a w = true := by
  intro sbs
  induction sbs with
  | nil => intro cbs j num r h w hw; simp [beamWritesInSet] at hw
  | cons sb srest ih =>
    intro cbs j num r h w hw
    cases cbs with
    | nil => simp [commitBeams] at h
    | cons cb crest =>
      simp only [commitBeams] at h
      split at h
      next haccN =>
        split at h
        next haccM =>
          split at h
          next heq =>
            simp only [beamWritesInSet, List.mem_cons] at hw
            rcases hw with rfl | rfl | hw
            · exact haccN
            · exact haccM
            · exact ih heq w hw
          next => cases h
        next => cases h
      next => cases h

theorem commitBeamSets_accepts {a : Write → Bool} {dflt : String} :
    ∀ {sbs cbs : List BeamSet} {i num : Nat} {r : List BeamSet × Nat},
    commitBeamSets a dflt i num sbs cbs = .ok r →
      ∀ w ∈ beamWrites dflt i num sbs, a w = true := by
  intro sbs
  induction sbs with
  | nil => intro cbs i num r h w hw; simp [beamWrites] at hw
  | cons sbs srest ih =>
    intro cbs i num r h w hw
    cases cbs with
    | nil => simp [commitBeamSets] at h
    | cons cbs crest =>
      simp only [commitBeamSets] at h
      split at h
      next heqB =>
        split at h
        next heqR =>
          simp only [beamWrites, List.mem_append] at hw
          rcases hw with hw | hw
          · exact commitBeams_accepts heqB w hw
          · have hsnd : (renumberBeams dflt num sbs.beams cbs.beams).2 =
                num + sbs.beams.length :=
              renumberBeams_snd (commitBeams_ok_length heqB)
            rw [commitBeams_ok heqB, hsnd] at heqR
            exact ih heqR w hw
        next => cases h
      next => cases h

theorem normalize_ok_accepts {dflt : String} {a : Write → Bool} {src : Plan} {copyIdx : Nat}
    {patient : PatientRecord} {copy : Plan} {p' : PatientRecord}
    (hGet : patient.plans.get? copyIdx = some copy)
    (hNE : planBeams src ≠ [])
    (h : normalize dflt a src copyIdx patient = .ok p') :
    ∀ w ∈ plannedWrites dflt src copy (maxExisting patient copyIdx), a w = true := by
  intro w hw
  rw [normalize, hGet] at h
  simp only [] at h
  rw [plannedWrites] at hw
  rw [if_neg hNE] at h
  by_cases hm : mirrors src copy = true
  · rw [if_pos hm] at h
    split at h
    next => cases h
    next bss1 heq1 =>
      split at h
      next => cases h
      next isos heq2 =>
        split at h
        next => cases h
        next r heq3 =>
          simp only [List.mem_append] at hw
          rcases hw with (hw | hw) | hw
          · exact commitBeamSetNames_accepts heq1 w hw
          · exact commitIsoNames_accepts heq2 w hw
          · rw [commitBeamSetNames_ok heq1] at heq3
            exact commitBeamSets_accepts heq3 w hw
  · rw [if_neg hm] at h; cases h

/-! ### Shape and content of the normalized copy -/

theorem normalizedCopy_flat {dflt : String} {src copy : Plan} {m : Nat}
    (hm : mirrors src copy = true) :
    planBeams (normalizedCopy dflt src copy m) =
      (renumberBeams dflt m (planBeams src) (planBeams copy)).1 := by
  have hshape := mirrors_shape hm
  have hlen : src.beamSets.length = copy.beamSets.length := shape_eq_length hshape
  have hbeams := @renameBeamSets_beams src.name copy.name _ _ hlen
  have hshape' : src.beamSets.map (·.beams.length) =
      (renameBeamSets src.name copy.name src.beamSets copy.beamSets).map (·.beams.length) := by
    calc src.beamSets.map (·.beams.length)
        = copy.beamSets.map (·.beams.length) := hshape
      _ = (renameBeamSets src.name copy.name src.beamSets copy.beamSets).map
            (·.beams.length) := by
          rw [show (fun bs : BeamSet => bs.beams.length) =
              List.length ∘ (fun bs : BeamSet => bs.beams) from rfl]
          rw [← List.map_map, ← List.map_map, hbeams]
  rw [normalizedCopy, planBeams]
  simp only []
  rw [renumberBeamSets_flatten hshape', planBeams, planBeams,
    flatMap_beams_congr hbeams]

theorem normalizedCopy_numbers {dflt : String} {src copy : Plan} {m : Nat}
    (hm : mirrors src copy = true) :
    (planBeams (normalizedCopy dflt src copy m)).map (·.number) =
      List.range' (m + 1) (planBeams src).length := by
  have hflat : (planBeams src).length = (planBeams copy).length :=
    shape_eq_flat_length (mirrors_shape hm)
  rw [normalizedCopy_flat hm, renumberBeams_numbers hflat]

theorem normalizedCopy_flags {dflt : String} {src copy : Plan} {m : Nat}
    (hm : mirrors src copy = true) :
    (planBeams (normalizedCopy dflt src copy m)).map (·.isSetup) =
      (planBeams copy).map (·.isSetup) := by
  have hflat : (planBeams src).length = (planBeams copy).length :=
    shape_eq_flat_length (mirrors_shape hm)
  rw [normalizedCopy_flat hm, renumberBeams_flags hflat]

theorem normalizedCopy_beamNames {dflt : String} {src copy : Plan} {m : Nat}
    (hm : mirrors src copy = true) (k : Nat) :
    ((planBeams (normalizedCopy dflt src copy m)).map (·.name)).get? k =
      ((planBeams src).get? k).map
        (fun sb => composeName (m + k + 1) (oldContext dflt sb)) := by
  have hflat : (planBeams src).length = (planBeams copy).length :=
    shape_eq_flat_length (mirrors_shape hm)
  rw [normalizedCopy_flat hm, renumberBeams_names hflat k]

theorem normalizedCopy_shape {dflt : String} {src copy : Plan} {m : Nat}
    (hm : mirrors src copy = true) :
    (normalizedCopy dflt src copy m).beamSets.map (·.beams.length) =
      src.beamSets.map (·.beams.length) := by
  have hshape := mirrors_shape hm
  have hlen : src.beamSets.length = copy.beamSets.length := shape_eq_length hshape
  have hbeams := @renameBeamSets_beams src.name copy.name _ _ hlen
  have hshape' : src.beamSets.map (·.beams.length) =
      (renameBeamSets src.name copy.name src.beamSets copy.beamSets).map (·.beams.length) := by
    calc src.beamSets.map (·.beams.length)
        = copy.beamSets.map (·.beams.length) := hshape
      _ = (renameBeamSets src.name copy.name src.beamSets copy.beamSets).map
            (·.beams.length) := by
          rw [show (fun bs : BeamSet => bs.beams.length) =
              List.length ∘ (fun bs : BeamSet => bs.beams) from rfl]
          rw [← List.map_map, ← List.map_map, hbeams]
  rw [normalizedCopy]
  simp only []
  rw [renumberBeamSets_shape hshape']

theorem normalizedCopy_setNames {dflt : String} {src copy : Plan} {m : Nat}
    (hm : mirrors src copy = true) :
    (normalizedCopy dflt src copy m).beamSets.map (·.name) =
      src.beamSets.map (fun b => copy.name ++ b.name.drop src.name.length) := by
  have hshape := mirrors_shape hm
  have hlen : src.beamSets.length = copy.beamSets.length := shape_eq_length hshape
  have hlen' : src.beamSets.length =
      (renameBeamSets src.name copy.name src.beamSets copy.beamSets).length := by
    have := congrArg List.length
      (@renameBeamSets_beams src.name copy.name _ _ hlen)
    simp only [List.length_map] at this
    omega
  rw [normalizedCopy]
  simp only []
  rw [renumberBeamSets_names hlen', renameBeamSets_names hlen]

theorem normalizedCopy_isoNames {dflt : String} {src copy : Plan} {m : Nat} :
    (normalizedCopy dflt src copy m).isocenters.map (·.name) =
      (List.range copy.isocenters.length).map
        (fun k => copy.name ++ " " ++ toString (k + 1)) := by
  rw [normalizedCopy]
  simp only []
  rw [renameIsos_names]
  refine List.map_congr_left fun k _ => ?_
  simp

theorem normalizedCopy_name {dflt : String} {src copy : Plan} {m : Nat} :
    (normalizedCopy dflt src copy m).name = copy.name := rfl

theorem normalizedCopy_isoLength {dflt : String} {src copy : Plan} {m : Nat} :
    (normalizedCopy dflt src copy m).isocenters.length = copy.isocenters.length := by
  rw [normalizedCopy]
  simp only []
  rw [renameIsos_length]

/-! ### Small utilities -/

theorem get?_set_self {α : Type} {l : List α} {i : Nat} {x : α} (h : i < l.length) :
    (l.set i x).get? i = some x := by
  rw [List.get?_eq_getElem?]
  exact List.getElem?_set_eq_of_lt x h

theorem get?_some_lt {α : Type} {l : List α} {i : Nat} {x : α} (h : l.get? i = some x) :
    i < l.length := by
  rw [List.get?_eq_getElem?] at h
  exact (List.getElem?_eq_some_iff.mp h).1

theorem eraseIdx_set_same {α : Type} :
    ∀ (l : List α) (i : Nat) (x : α), (l.set i x).eraseIdx i = l.eraseIdx i := by
  intro l
  induction l with
  | nil => intro i x; simp
  | cons a rest ih =>
    intro i x
    cases i with
    | zero => simp [List.set, List.eraseIdx]
    | succ i => simp [List.set, List.eraseIdx, ih]

theorem maxExisting_set {patient : PatientRecord} {copyIdx : Nat} {p : Plan} :
    maxExisting ⟨patient.plans.set copyIdx p⟩ copyIdx = maxExisting patient copyIdx := by
  rw [maxExisting, maxExisting, othersNumbers, othersNumbers]
  simp only []
  rw [eraseIdx_set_same]

theorem minimum_range' (s n : Nat) (h : 0 < n) :
    (List.range' s n).minimum = (↑s : WithTop Nat) := by
  refine List.minimum_eq_coe_iff.mpr ⟨?_, ?_⟩
  · simp only [Nat.cast_id, List.mem_range'_1]
    omega
  · intro b hb
    simp only [Nat.cast_id] at *
    rw [List.mem_range'_1] at hb
    omega

theorem normalize_empty_ok {dflt : String} {a : Write → Bool} {src : Plan} {copyIdx : Nat}
    {patient : PatientRecord} {copy : Plan}
    (hGet : patient.plans.get? copyIdx = some copy)
    (hZ : planBeams src = []) :
    normalize dflt a src copyIdx patient = .ok patient := by
  rw [normalize, hGet]
  simp only []
  rw [if_pos hZ]

/-! ### The claims -/

/-- C1: for every patient record and source plan with at least one beam, if
`normalize` succeeds then the minimum beam Number among the copy's beams
equals 1 plus the maximum beam Number over every beam in every plan of the
patient other than the copy, that maximum taken as 0 when no such beam
exists. -/
theorem claim_C1_min_number {dflt : String} {a : Write → Bool} {src : Plan} {copyIdx : Nat}
    {patient : PatientRecord} {copy copy' : Plan} {p' : PatientRecord}
    (hGet : patient.plans.get? copyIdx = some copy)
    (hNE : planBeams src ≠ [])
    (hOk : normalize dflt a src copyIdx patient = .ok p')
    (hGet' : p'.plans.get? copyIdx = some copy') :
    ((planBeams copy').map (·.number)).minimum =
      ((maxExisting patient copyIdx + 1 : Nat) : WithTop Nat) := by
  obtain ⟨hm, rfl⟩ := normalize_ok_char hGet hNE hOk
  have hlt : copyIdx < patient.plans.length := get?_some_lt hGet
  rw [get?_set_self hlt] at hGet'
  cases hGet'
  rw [normalizedCopy_numbers hm]
  exact minimum_range' _ _ (List.length_pos.mpr hNE)

/-- C1 witness: in the concrete scenario of the spec (existing maximum 7),
the minimum new beam number is 8. -/
theorem claim_C1_witness :
    normalize "SB" acceptAll scnSrc 2 scnPatient = .ok scnResult ∧
      ((planBeams scnResCopy).map (·.number)).minimum = ((8 : Nat) : WithTop Nat) :=
  ⟨rfl, @claim_C1_min_number "SB" acceptAll scnSrc 2 scnPatient scnCopy scnResCopy scnResult
    rfl (by decide) rfl rfl⟩

/-- C3: a successful `normalize` enumerates the copy's beams in beam-set
order with the source beams' original relative order inside each beam set,
setup beams interleaved exactly as the source listed them (not reordered to
the end): the copy keeps the source's per-beam-set beam counts, its flattened
beams carry the consecutive numbers in that enumeration order, and its
flattened setup flags coincide positionally with the source's. -/
theorem claim_C3_enumeration_order {dflt : String} {a : Write → Bool} {src : Plan}
    {copyIdx : Nat} {patient : PatientRecord} {copy copy' : Plan} {p' : PatientRecord}
    (hGet : patient.plans.get? copyIdx = some copy)
    (hNE : planBeams src ≠ [])
    (hOk : normalize dflt a src copyIdx patient = .ok p')
    (hGet' : p'.plans.get? copyIdx = some copy') :
    copy'.beamSets.map (·.beams.length) = src.beamSets.map (·.beams.length) ∧
      (planBeams copy').map (·.number) =
        List.range' (maxExisting patient copyIdx + 1) (planBeams src).length ∧
      (planBeams copy').map (·.isSetup) = (planBeams src).map (·.isSetup) := by
  obtain ⟨hm, rfl⟩ := normalize_ok_char hGet hNE hOk
  have hlt : copyIdx < patient.plans.length := get?_some_lt hGet
  rw [get?_set_self hlt] at hGet'
  cases hGet'
  refine ⟨normalizedCopy_shape hm, normalizedCopy_numbers hm, ?_⟩
  rw [normalizedCopy_flags hm, mirrors_flags hm]

/-- C3 witness: in the concrete scenario the copy keeps shape `[2, 1]`,
receives numbers 8, 9, 10 in order, and keeps all-treatment flags. -/
theorem claim_C3_witness :
    normalize "SB" acceptAll scnSrc 2 scnPatient = .ok scnResult ∧
      (planBeams scnResCopy).map (·.number) = [8, 9, 10] := by
  refine ⟨rfl, ?_⟩
  have h := @claim_C3_enumeration_order "SB" acceptAll scnSrc 2 scnPatient scnCopy
    scnResCopy scnResult rfl (by decide) rfl rfl
  rw [h.2.1]
  decide

/-- C4: a successful `normalize` names each copy beam after its newly
assigned number; when the source counterpart has old context (old name
different from the decimal of its old number for treatment beams, or from
the host default setup name for setup beams), the new name is the decimal of
the new number, one space, and the exact old name. -/
theorem claim_C4_beam_names {dflt : String} {a : Write → Bool} {src : Plan}
    {copyIdx : Nat} {patient : PatientRecord} {copy copy' : Plan} {p' : PatientRecord}
    (hGet : patient.plans.get? copyIdx = some copy)
    (hNE : planBeams src ≠ [])
    (hOk : normalize dflt a src copyIdx patient = .ok p')
    (hGet' : p'.plans.get? copyIdx = some copy') :
    ∀ k : Nat,
      ((planBeams copy').map (·.name)).get? k =
        ((planBeams src).get? k).map (fun sb =>
          match oldContext dflt sb with
          | none => toString (maxExisting patient copyIdx + k + 1)
          | some c => toString (maxExisting patient copyIdx + k + 1) ++ " " ++ c) := by
  obtain ⟨hm, rfl⟩ := normalize_ok_char hGet hNE hOk
  have hlt : copyIdx < patient.plans.length := get?_some_lt hGet
  rw [get?_set_self hlt] at hGet'
  cases hGet'
  intro k
  exact normalizedCopy_beamNames hm k

/-- C4 witness: in the concrete scenario the beam formerly named "Boost"
(source number 3, name "Boost") becomes "10 Boost", and the first two beams
become "8" and "9". -/
theorem claim_C4_witness :
    normalize "SB" acceptAll scnSrc 2 scnPatient = .ok scnResult ∧
      ((planBeams scnResCopy).map (·.name)).get? 2 = some "10 Boost" ∧
      ((planBeams scnResCopy).map (·.name)).get? 0 = some "8" := by
  have h := @claim_C4_beam_names "SB" acceptAll scnSrc 2 scnPatient scnCopy
    scnResCopy scnResult rfl (by decide) rfl rfl
  refine ⟨rfl, ?_, ?_⟩
  · rw [h 2]; decide
  · rw [h 0]; decide

/-- C5: beam-set and isocenter renaming is purely positional.  After two
successful normalizations whose sources bear the same relative suffix
pattern (source beam-set name with the source plan name's length dropped)
and whose copies have equally many isocenters, each copy's beam-set names
are the common pattern re-rooted at its own copy name, and each copy's
isocenter names are its copy name followed by a space and the 1-based
position — identical patterns up to substitution of the root name, with the
copies' host-assigned default names never consulted. -/
theorem claim_C5_positional_renaming {dflt1 dflt2 : String} {a1 a2 : Write → Bool}
    {src1 src2 : Plan} {copyIdx1 copyIdx2 : Nat} {patient1 patient2 : PatientRecord}
    {copy1 copy2 copy1' copy2' : Plan} {p1 p2 : PatientRecord}
    (hGet1 : patient1.plans.get? copyIdx1 = some copy1)
    (hNE1 : planBeams src1 ≠ [])
    (hOk1 : normalize dflt1 a1 src1 copyIdx1 patient1 = .ok p1)
    (hGet1' : p1.plans.get? copyIdx1 = some copy1')
    (hGet2 : patient2.plans.get? copyIdx2 = some copy2)
    (hNE2 : planBeams src2 ≠ [])
    (hOk2 : normalize dflt2 a2 src2 copyIdx2 patient2 = .ok p2)
    (hGet2' : p2.plans.get? copyIdx2 = some copy2')
    (hPat : src1.beamSets.map (fun b => b.name.drop src1.name.length) =
      src2.beamSets.map (fun b => b.name.drop src2.name.length))
    (hIso : copy1.isocenters.length = copy2.isocenters.length) :
    copy1'.beamSets.map (·.name) =
        (src1.beamSets.map (fun b => b.name.drop src1.name.length)).map
          (fun sfx => copy1.name ++ sfx) ∧
      copy2'.beamSets.map (·.name) =
        (src1.beamSets.map (fun b => b.name.drop src1.name.length)).map
          (fun sfx => copy2.name ++ sfx) ∧
      copy1'.isocenters.map (·.name) =
        (List.range copy1.isocenters.length).map
          (fun k => copy1.name ++ " " ++ toString (k + 1)) ∧
      copy2'.isocenters.map (·.name) =
        (List.range copy1.isocenters.length).map
          (fun k => copy2.name ++ " " ++ toString (k + 1)) := by
  obtain ⟨hm1, rfl⟩ := normalize_ok_char hGet1 hNE1 hOk1
  obtain ⟨hm2, rfl⟩ := normalize_ok_char hGet2 hNE2 hOk2
  have hlt1 : copyIdx1 < patient1.plans.length := get?_some_lt hGet1
  have hlt2 : copyIdx2 < patient2.plans.length := get?_some_lt hGet2
  rw [get?_set_self hlt1] at hGet1'
  rw [get?_set_self hlt2] at hGet2'
  cases hGet1'
  cases hGet2'
  refine ⟨?_, ?_, ?_, ?_⟩
  · rw [normalizedCopy_setNames hm1, List.map_map]
    rfl
  · rw [normalizedCopy_setNames hm2, hPat, List.map_map]
    rfl
  · rw [normalizedCopy_isoNames]
  · rw [normalizedCopy_isoNames, hIso]

/-- C5 witness: the `Plan 1` and `R Breast` scenarios share the relative
suffix pattern `["", "_2"]`; their normalized copies' beam-set names are the
pattern re-rooted at `Plan 1 (1)` and `R Breast (1)` respectively. -/
theorem claim_C5_witness :
    normalize "SB" acceptAll scnSrc 2 scnPatient = .ok scnResult ∧
      normalize "SB" acceptAll scnSrc2 1 scnPatient2 = .ok scnResult2 ∧
      scnResCopy.beamSets.map (·.name) = ["Plan 1 (1)", "Plan 1 (1)_2"] ∧
      scnResCopy2.beamSets.map (·.name) = ["R Breast (1)", "R Breast (1)_2"] ∧
      scnResCopy.isocenters.map (·.name) = ["Plan 1 (1) 1"] ∧
      scnResCopy2.isocenters.map (·.name) = ["R Breast (1) 1"] := by
  have h := @claim_C5_positional_renaming "SB" "SB" acceptAll acceptAll scnSrc scnSrc2
    2 1 scnPatient scnPatient2 scnCopy scnCopy2 scnResCopy scnResCopy2 scnResult scnResult2
    rfl (by decide) rfl rfl rfl (by decide) rfl rfl (by decide) (by decide)
  refine ⟨rfl, rfl, ?_, ?_, ?_, ?_⟩
  · rw [h.1]; decide
  · rw [h.2.1]; decide
  · rw [h.2.2.1]; decide
  · rw [h.2.2.2]; decide

/-- C7: when the source plan contains zero beams, `normalize` reports
success as a no-op (the `ExhaustedInput` condition): it returns the patient
record unchanged rather than an error and assigns no beam numbers. -/
theorem claim_C7_exhausted_input {dflt : String} {a : Write → Bool} {src : Plan}
    {copyIdx : Nat} {patient : PatientRecord} {copy : Plan}
    (hGet : patient.plans.get? copyIdx = some copy)
    (hZ : planBeams src = []) :
    normalize dflt a src copyIdx patient = .ok patient :=
  normalize_empty_ok hGet hZ

/-- C7 witness: normalizing from the beam-less source `E` leaves the
concrete patient record unchanged and succeeds. -/
theorem claim_C7_witness :
    planBeams scnEmptySrc = [] ∧
      normalize "SB" acceptAll scnEmptySrc 2 scnPatient = .ok scnPatient :=
  ⟨rfl, @claim_C7_exhausted_input "SB" acceptAll scnEmptySrc 2 scnPatient scnCopy rfl rfl⟩

/-- C8: `normalize` never reports partial success: whenever the host refuses
any single rename or renumber write of the planned commit (the source having
at least one beam, so the commit is actually attempted), the whole operation
is reported to the caller as a typed failure, never as success. -/
theorem claim_C8_no_silent_failure {dflt : String} {a : Write → Bool} {src : Plan}
    {copyIdx : Nat} {patient : PatientRecord} {copy : Plan} {w : Write}
    (hNE : planBeams src ≠ [])
    (hGet : patient.plans.get? copyIdx = some copy)
    (hw : w ∈ plannedWrites dflt src copy (maxExisting patient copyIdx))
    (hRef : a w = false) :
    (normalize dflt a src copyIdx patient).isOk = false := by
  cases hres : normalize dflt a src copyIdx patient with
  | error e => rfl
  | ok p' =>
    have := normalize_ok_accepts hGet hNE hres w hw
    rw [hRef] at this
    cases this

/-- C8 witness: a host refusing beam-number writes makes the concrete
scenario fail (the first beam-number write, number 8 to beam (0,0), is
planned and refused). -/
theorem claim_C8_witness :
    rejectNumbers (.beamNumber 0 0 8) = false ∧
      (normalize "SB" rejectNumbers scnSrc 2 scnPatient).isOk = false :=
  ⟨rfl, @claim_C8_no_silent_failure "SB" rejectNumbers scnSrc 2 scnPatient scnCopy
    (.beamNumber 0 0 8) (by decide) rfl (by decide) rfl⟩

/-- C9: `normalize` never creates or deletes any entity and treats the
source as read-only: on success the patient keeps its plan count, every plan
other than the copy is unchanged, and the copy keeps its plan name, its
isocenter count, its per-beam-set beam counts, and its beams' setup flags —
only Name fields of the copy's beam sets, isocenters and beams and Number
fields of its beams may differ. -/
theorem claim_C9_frame {dflt : String} {a : Write → Bool} {src : Plan}
    {copyIdx : Nat} {patient : PatientRecord} {copy copy' : Plan} {p' : PatientRecord}
    (hGet : patient.plans.get? copyIdx = some copy)
    (hOk : normalize dflt a src copyIdx patient = .ok p')
    (hGet' : p'.plans.get? copyIdx = some copy') :
    p'.plans.length = patient.plans.length ∧
      (∀ j, j ≠ copyIdx → p'.plans.get? j = patient.plans.get? j) ∧
      copy'.name = copy.name ∧
      copy'.isocenters.length = copy.isocenters.length ∧
      copy'.beamSets.map (·.beams.length) = copy.beamSets.map (·.beams.length) ∧
      (planBeams copy').map (·.isSetup) = (planBeams copy).map (·.isSetup) := by
  by_cases hZ : planBeams src = []
  · rw [normalize_empty_ok hGet hZ] at hOk
    cases hOk
    rw [hGet] at hGet'
    cases hGet'
    exact ⟨rfl, fun j _ => rfl, rfl, rfl, rfl, rfl⟩
  · obtain ⟨hm, rfl⟩ := normalize_ok_char hGet hZ hOk
    have hlt : copyIdx < patient.plans.length := get?_some_lt hGet
    rw [get?_set_self hlt] at hGet'
    cases hGet'
    refine ⟨by simp, ?_, normalizedCopy_name, normalizedCopy_isoLength, ?_, ?_⟩
    · intro j hj
      simp only []
      rw [List.get?_eq_getElem?, List.get?_eq_getElem?,
        List.getElem?_set_ne (fun h => hj h.symm)]
    · rw [normalizedCopy_shape hm, mirrors_shape hm]
    · exact normalizedCopy_flags hm

/-- C9 witness: in the concrete scenario the other plans are untouched and
the copy keeps name, isocenter count, shape and setup flags. -/
theorem claim_C9_witness :
    normalize "SB" acceptAll scnSrc 2 scnPatient = .ok scnResult ∧
      scnResult.plans.get? 0 = some scnOther ∧
      scnResult.plans.get? 1 = some scnSrc ∧
      scnResCopy.name = scnCopy.name ∧
      scnResCopy.beamSets.map (·.beams.length) = scnCopy.beamSets.map (·.beams.length) := by
  have h := @claim_C9_frame "SB" acceptAll scnSrc 2 scnPatient scnCopy scnResCopy scnResult
    rfl rfl rfl
  refine ⟨rfl, ?_, ?_, h.2.2.1, h.2.2.2.2.1⟩
  · rw [h.2.1 0 (by decide)]; rfl
  · rw [h.2.1 1 (by decide)]; rfl

/-- C6 counterexample: invoking `normalize` a second time on the same copy
does NOT assign strictly greater numbers.  In the double-invocation scenario
both invocations succeed and assign exactly the same number 3, because
`maxExisting` excludes the copy and the other plans are untouched. -/
theorem claim_C6_counterexample :
    normalize "SB" acceptAll twiceSrc 1 twicePatient = .ok twiceResult1 ∧
      normalize "SB" acceptAll twiceSrc 1 twiceResult1 = .ok twiceResult2 ∧
      ((twiceResult1.plans.get? 1).getD ⟨"", [], []⟩ |> planBeams).map (·.number) = [3] ∧
      ((twiceResult2.plans.get? 1).getD ⟨"", [], []⟩ |> planBeams).map (·.number) = [3] ∧
      ¬ (∀ n2 ∈ ((twiceResult2.plans.get? 1).getD ⟨"", [], []⟩ |> planBeams).map (·.number),
          ∀ n1 ∈ ((twiceResult1.plans.get? 1).getD ⟨"", [], []⟩ |> planBeams).map (·.number),
            n1 < n2) := by
  refine ⟨rfl, rfl, rfl, rfl, ?_⟩
  decide

/-- C6 amended: `normalize` is not required to advance the numbers on a
second invocation; on the contrary, a successful second invocation on the
same copy assigns exactly the same numbers as the first, because
`maxExisting` excludes the copy's own beams and no plan other than the copy
changed. -/
theorem claim_C6_amended {dflt : String} {a a2 : Write → Bool} {src : Plan}
    {copyIdx : Nat} {patient : PatientRecord} {copy copy1' copy2' : Plan}
    {p1 p2 : PatientRecord}
    (hGet : patient.plans.get? copyIdx = some copy)
    (hNE : planBeams src ≠ [])
    (hOk1 : normalize dflt a src copyIdx patient = .ok p1)
    (hGet1' : p1.plans.get? copyIdx = some copy1')
    (hOk2 : normalize dflt a2 src copyIdx p1 = .ok p2)
    (hGet2' : p2.plans.get? copyIdx = some copy2') :
    (planBeams copy2').map (·.number) = (planBeams copy1').map (·.number) := by
  obtain ⟨hm1, rfl⟩ := normalize_ok_char hGet hNE hOk1
  have hlt : copyIdx < patient.plans.length := get?_some_lt hGet
  have hc1 : normalizedCopy dflt src copy (maxExisting patient copyIdx) = copy1' :=
    Option.some_inj.mp ((get?_set_self hlt).symm.trans hGet1')
  obtain ⟨hm2, rfl⟩ := normalize_ok_char hGet1' hNE hOk2
  have hlt2 : copyIdx <
      (patient.plans.set copyIdx
        (normalizedCopy dflt src copy (maxExisting patient copyIdx))).length := by
    simpa using hlt
  have hc2 := Option.some_inj.mp ((get?_set_self hlt2).symm.trans hGet2')
  rw [← hc2, normalizedCopy_numbers hm2, maxExisting_set, ← hc1, normalizedCopy_numbers hm1]

/-- C6 amended witness: in the double-invocation scenario the second
invocation's numbers equal the first's. -/
theorem claim_C6_amended_witness :
    normalize "SB" acceptAll twiceSrc 1 twicePatient = .ok twiceResult1 ∧
      normalize "SB" acceptAll twiceSrc 1 twiceResult1 = .ok twiceResult2 ∧
      ((twiceResult2.plans.get? 1).getD ⟨"", [], []⟩ |> planBeams).map (·.number) =
        ((twiceResult1.plans.get? 1).getD ⟨"", [], []⟩ |> planBeams).map (·.number) :=
  ⟨rfl, rfl,
    @claim_C6_amended "SB" acceptAll acceptAll twiceSrc 1 twicePatient twiceCopy
      ((twiceResult1.plans.get? 1).getD ⟨"", [], []⟩)
      ((twiceResult2.plans.get? 1).getD ⟨"", [], []⟩)
      twiceResult1 twiceResult2 rfl (by decide) rfl rfl rfl rfl⟩

/-- C2 counterexample: the numbers written by a successful `normalize` CAN
collide with numbers pre-existing in the copy itself, and patient-wide
uniqueness CAN fail at an intermediate point of the commit.  In the
transient-collision scenario (other plans hold numbers 1, 2; the copy's
host-assigned numbers are 4, 3) normalization succeeds assigning 3 and 4,
the new number 3 collides with a number pre-existing in the patient (the
copy's beam numbered 3), and after the first number write the patient-wide
numbers 1, 2, 3, 3 contain a duplicate. -/
theorem claim_C2_counterexample :
    (normalize "SB" acceptAll transSrc 1 transPatient).isOk = true ∧
      midNumbers transPatient 1 transSrc transCopy 1 = [1, 2, 3, 3] ∧
      ¬ (midNumbers transPatient 1 transSrc transCopy 1).Nodup ∧
      ¬ (∀ n ∈ newNumbers transSrc (maxExisting transPatient 1),
          n ∉ (planBeams transCopy).map (·.number)) := by
  refine ⟨rfl, rfl, by decide, by decide⟩

/-- C2 amended: after a successful `normalize`, the numbers assigned to the
copy's beams form the contiguous run `maxExisting + 1, maxExisting + 2, …`
with no duplicates, every one strictly greater than every number in the
patient's other plans (hence colliding with none of them); and provided the
patient's pre-call beam numbers are patient-wide unique and the copy's
host-assigned numbers do not exceed `maxExisting`, no new number collides
with any pre-existing number at all and patient-wide uniqueness holds at
every intermediate point of the commit. -/
theorem claim_C2_amended {dflt : String} {a : Write → Bool} {src : Plan}
    {copyIdx : Nat} {patient : PatientRecord} {copy copy' : Plan} {p' : PatientRecord}
    (hGet : patient.plans.get? copyIdx = some copy)
    (hNE : planBeams src ≠ [])
    (hOk : normalize dflt a src copyIdx patient = .ok p')
    (hGet' : p'.plans.get? copyIdx = some copy') :
    (planBeams copy').map (·.number) = newNumbers src (maxExisting patient copyIdx) ∧
      ((planBeams copy').map (·.number)).Nodup ∧
      (∀ n ∈ (planBeams copy').map (·.number),
        ∀ o ∈ othersNumbers patient copyIdx, o < n) ∧
      (∀ n ∈ (planBeams copy').map (·.number), n ∉ othersNumbers patient copyIdx) ∧
      ((othersNumbers patient copyIdx ++ (planBeams copy).map (·.number)).Nodup →
        (∀ n ∈ (planBeams copy).map (·.number), n ≤ maxExisting patient copyIdx) →
        (∀ n ∈ (planBeams copy').map (·.number), n ∉ (planBeams copy).map (·.number)) ∧
          (∀ k, (midNumbers patient copyIdx src copy k).Nodup)) := by
  obtain ⟨hm, rfl⟩ := normalize_ok_char hGet hNE hOk
  have hlt : copyIdx < patient.plans.length := get?_some_lt hGet
  rw [get?_set_self hlt] at hGet'
  cases hGet'
  have hnum : (planBeams (normalizedCopy dflt src copy (maxExisting patient copyIdx))).map
      (·.number) = newNumbers src (maxExisting patient copyIdx) :=
    normalizedCopy_numbers hm
  have hmemNew : ∀ n ∈ newNumbers src (maxExisting patient copyIdx),
      maxExisting patient copyIdx + 1 ≤ n := by
    intro n hn
    rw [newNumbers, List.mem_range'_1] at hn
    omega
  have hothersLe : ∀ o ∈ othersNumbers patient copyIdx, o ≤ maxExisting patient copyIdx :=
    fun o ho => le_foldr_max ho
  refine ⟨hnum, ?_, ?_, ?_, ?_⟩
  · rw [hnum, newNumbers]
    exact List.nodup_range' _ _
  · intro n hn o ho
    rw [hnum] at hn
    have h1 := hmemNew n hn
    have h2 := hothersLe o ho
    omega
  · intro n hn hmem
    rw [hnum] at hn
    have h1 := hmemNew n hn
    have h2 := hothersLe n hmem
    omega
  · intro hu hb
    obtain ⟨huO, huC, huD⟩ := List.nodup_append.mp hu
    refine ⟨?_, ?_⟩
    · intro n hn hmem
      rw [hnum] at hn
      have h1 := hmemNew n hn
      have h2 := hb n hmem
      omega
    · intro k
      rw [midNumbers, List.nodup_append]
      refine ⟨?_, ?_, ?_⟩
      · rw [List.nodup_append]
        refine ⟨huO, ?_, ?_⟩
        · exact (List.take_sublist _ _).nodup
            (by rw [newNumbers]; exact List.nodup_range' _ _)
        · intro x hx hx'
          have h2 := hothersLe x hx
          have h1 := hmemNew x (List.take_subset _ _ hx')
          omega
      · exact (List.drop_sublist _ _).nodup huC
      · intro x hx hx'
        have hxd := List.drop_subset _ _ hx'
        rcases List.mem_append.mp hx with hx | hx
        · exact huD hx hxd
        · have h1 := hmemNew x (List.take_subset _ _ hx)
          have h2 := hb x hxd
          omega

/-- C2 amended witness: in the concrete scenario of the spec (pre-call
numbers 7, 1, 2, 3, 4, 5, 6 all distinct, the copy's not exceeding 7) the
new numbers are 8, 9, 10 and every intermediate number multiset, e.g. after
two number writes, is duplicate-free. -/
theorem claim_C2_amended_witness :
    normalize "SB" acceptAll scnSrc 2 scnPatient = .ok scnResult ∧
      (othersNumbers scnPatient 2 ++ (planBeams scnCopy).map (·.number)).Nodup ∧
      (planBeams scnResCopy).map (·.number) = newNumbers scnSrc (maxExisting scnPatient 2) ∧
      (midNumbers scnPatient 2 scnSrc scnCopy 2).Nodup := by
  have h := @claim_C2_amended "SB" acceptAll scnSrc 2 scnPatient scnCopy scnResCopy scnResult
    rfl (by decide) rfl rfl
  exact ⟨rfl, by decide, h.1, (h.2.2.2.2 (by decide) (by decide)).2 2⟩

end CopyPlan

namespace Diode

/-! ### The per-line loop never touches the five metadata columns -/

theorem foldl_processLine_meta : ∀ (ls : List String) (d : DiodeData),
    (ls.foldl processLine d).machine = d.machine ∧
      (ls.foldl processLine d).radDevice = d.radDevice ∧
      (ls.foldl processLine d).run = d.run ∧
      (ls.foldl processLine d).normLevel = d.normLevel ∧
      (ls.foldl processLine d).doseType = d.doseType := by
  intro ls
  induction ls with
  | nil => intro d; exact ⟨rfl, rfl, rfl, rfl, rfl⟩
  | cons l rest ih => intro d; exact ih (processLine d l)

theorem processFile_meta_lengths {d : DiodeData} {toks ls : List String} {d' : DiodeData}
    (h : processFile d toks ls = some d') :
    d'.machine.length = d.machine.length + N_DIODES ∧
      d'.radDevice.length = d.radDevice.length + N_DIODES ∧
      d'.run.length = d.run.length + N_DIODES ∧
      d'.normLevel.length = d.normLevel.length + N_DIODES ∧
      d'.doseType.length = d.doseType.length + N_DIODES := by
  rcases toks with _ | ⟨t1, toks⟩
  · simp [processFile] at h
  rcases toks with _ | ⟨t2, toks⟩
  · simp [processFile] at h
  rcases toks with _ | ⟨t3, toks⟩
  · simp [processFile] at h
  rcases toks with _ | ⟨t4, toks⟩
  · simp [processFile] at h
  rcases toks with _ | ⟨t5, toks⟩
  · simp [processFile] at h
  rcases toks with _ | ⟨t6, toks⟩
  case cons.cons.cons.cons.cons.cons => simp [processFile] at h
  simp only [processFile] at h
  split at h
  next l5 l6 l7 heq5 heq6 heq7 =>
    cases h
    obtain ⟨e1, e2, e3, e4, e5⟩ := foldl_processLine_meta (ls.drop 9) _
    rw [e1, e2, e3, e4, e5]
    simp [List.length_append]
  next => cases h

theorem processFiles_meta_lengths :
    ∀ (files : List (List String × List String)) (d0 d : DiodeData),
    processFiles files d0 = some d →
    d.machine.length = d0.machine.length + N_DIODES * files.length ∧
      d.radDevice.length = d0.radDevice.length + N_DIODES * files.length ∧
      d.run.length = d0.run.length + N_DIODES * files.length ∧
      d.normLevel.length = d0.normLevel.length + N_DIODES * files.length ∧
      d.doseType.length = d0.doseType.length + N_DIODES * files.length := by
  intro files
  induction files with
  | nil =>
    intro d0 d h
    simp only [processFiles] at h
    cases h
    simp
  | cons f rest ih =>
    intro d0 d h
    simp only [processFiles] at h
    split at h
    next => cases h
    next d1 heq =>
      obtain ⟨i1, i2, i3, i4, i5⟩ := ih d1 d h
      obtain ⟨s1, s2, s3, s4, s5⟩ := processFile_meta_lengths heq
      refine ⟨?_, ?_, ?_, ?_, ?_⟩ <;> simp only [List.length_cons, Nat.mul_succ] <;> omega

/-- C10: every processed export file appends exactly
`N_DIODES = 25 × 42 = 1050` entries to each of the five metadata columns
`Machine`, `Radiation Device`, `Run`, `Normalization Level` and `Dose Type`
of `diode_data`, so after processing `n` files each of these five lists has
length exactly `1050 · n`; no analogous per-file guarantee holds for the
coordinate and dose columns. -/
theorem claim_C10_metadata_lengths :
    N_DIODES = 1050 ∧
      (∀ (d : DiodeData) (toks ls : List String) (d' : DiodeData),
        processFile d toks ls = some d' →
        d'.machine.length = d.machine.length + N_DIODES ∧
          d'.radDevice.length = d.radDevice.length + N_DIODES ∧
          d'.run.length = d.run.length + N_DIODES ∧
          d'.normLevel.length = d.normLevel.length + N_DIODES ∧
          d'.doseType.length = d.doseType.length + N_DIODES) ∧
      (∀ (files : List (List String × List String)) (d : DiodeData),
        processFiles files emptyDiodeData = some d →
        d.machine.length = N_DIODES * files.length ∧
          d.radDevice.length = N_DIODES * files.length ∧
          d.run.length = N_DIODES * files.length ∧
          d.normLevel.length = N_DIODES * files.length ∧
          d.doseType.length = N_DIODES * files.length) ∧
      ¬ (∀ (d : DiodeData) (toks ls : List String) (d' : DiodeData),
          processFile d toks ls = some d' →
          d'.dist.length = d.dist.length + N_DIODES ∧
            d'.dose.length = d.dose.length + N_DIODES) := by
  refine ⟨rfl, fun d toks ls d' h => processFile_meta_lengths h, ?_, ?_⟩
  · intro files d h
    have := processFiles_meta_lengths files emptyDiodeData d h
    simpa [emptyDiodeData] using this
  · intro hAll
    have h := hAll emptyDiodeData shortToks shortLines
      ((processFile emptyDiodeData shortToks shortLines).getD emptyDiodeData) rfl
    exact absurd h.1 (by decide)

/-- C10 witness: processing one concrete export file gives each metadata
column exactly 1050 entries. -/
theorem claim_C10_witness :
    processFiles [(sampleToks, sampleLines)] emptyDiodeData = some sampleResult ∧
      sampleResult.machine.length = 1050 ∧
      sampleResult.doseType.length = 1050 :=
  ⟨rfl,
    (claim_C10_metadata_lengths.2.2.1 [(sampleToks, sampleLines)] sampleResult rfl).1,
    (claim_C10_metadata_lengths.2.2.1 [(sampleToks, sampleLines)] sampleResult rfl).2.2.2.2⟩

end Diode
